import Mathlib

/-!
Verification development for the mlscript interpreter core
(`src/interpreter/core.py`, `src/interpreter/lexer.py`,
`src/interpreter/parser.py`).

The Python source is shallowly embedded: classes become inductive data,
the exception-based control-flow signals (`ReturnSignal`, `BreakSignal`,
`ContinueSignal`, `MlscriptThrow`) become an explicit outcome type, the
`while` loops of the C3 merge and of the evaluator become fuel-bounded
structural recursion (with fuel chosen large enough that it is never
exhausted on the inputs of interest), and the external numeric backend
(`mlscript.Evaluator`: variable scopes and the arithmetic dispatcher) is
modelled from the spec, since its code is not part of this snapshot.
-/

namespace Mlscript

/-! ## Classes and C3 linearization (`core.py`, `C3_MRO`, `MlscriptClass`)

A Python `MlscriptClass` object carries `name`, `parents`, `methods`
(a dict mapping method names to `FunctionDef` nodes; here the nodes are
identified by numeric ids) and `mro`, a list of class objects computed
once at construction time and starting with the class itself.  Python
compares class objects by identity; we give every class object a numeric
identity `cid` and compare by it.  Because the stored `mro` starts with
the class itself, we store only its tail (`mroTail`, the merge of the
parents, computed at definition time) and recover the full list with
`mroList`. -/

inductive ClassObj : Type where
  | mk : Nat → String → List (String × Nat) → List ClassObj → ClassObj

def ClassObj.cid : ClassObj → Nat
  | .mk i _ _ _ => i

def ClassObj.cname : ClassObj → String
  | .mk _ n _ _ => n

def ClassObj.methods : ClassObj → List (String × Nat)
  | .mk _ _ ms _ => ms

def ClassObj.mroTail : ClassObj → List ClassObj
  | .mk _ _ _ t => t

/-- The `mro` attribute of a class: the class itself followed by the
merge of its parents computed at definition time (`C3_MRO.resolve`
builds `[cls] + merge(...)` and stores it on the object). -/
def mroList (c : ClassObj) : List ClassObj :=
  c :: c.mroTail

/-- Python `head in other_mro[1:]`: membership (by object identity) of a
class in the tail of a candidate list. -/
def inTail (h : ClassObj) (l : List ClassObj) : Bool :=
  l.tail.any (fun k => k.cid == h.cid)

/-- The good-head search of `C3_MRO._merge`: walk the (already
filtered) lists in order, take the head of each, and accept the first
head that appears in the tail of no list (including its own). -/
def findGoodHead (all : List (List ClassObj)) : List (List ClassObj) → Option ClassObj
  | [] => none
  | l :: rest =>
    match l with
    | [] => findGoodHead all rest
    | h :: _ => if all.all (fun l2 => !(inTail h l2)) then some h else findGoodHead all rest

def msgMroError : String := r"Cannot create a consistent Method Resolution Order (MRO)."

def msgMergeFuel : String := r"merge fuel exhausted"

/-- One pass of removing an accepted good head: every list whose head is
the accepted class (by identity) loses its head (`del mro[0]`). -/
def dropHead (gh : ClassObj) (ls : List (List ClassObj)) : List (List ClassObj) :=
  ls.map (fun l =>
    match l with
    | [] => []
    | h :: t => if h.cid == gh.cid then t else h :: t)

/-- The `while True` loop of `C3_MRO._merge`, as fuel-bounded recursion.
Each productive iteration removes at least one element from the lists,
so total length plus one is always enough fuel; running out of fuel is
unreachable but reported as an error for totality. -/
def mergeLoop : Nat → List (List ClassObj) → Except String (List ClassObj)
  | 0, _ => .error msgMergeFuel
  | fuel + 1, ls =>
    let ls := ls.filter (fun l => !l.isEmpty)
    if ls.isEmpty then .ok []
    else
      match findGoodHead ls ls with
      | none => .error msgMroError
      | some gh =>
        match mergeLoop fuel (dropHead gh ls) with
        | .error e => .error e
        | .ok rest => .ok (gh :: rest)

def totalLen (ls : List (List ClassObj)) : Nat :=
  (ls.map List.length).sum

/-- `C3_MRO._merge`: the early-exit on `not any(mro_list)` (all parent
lists empty or no parents at all), then the merge loop. -/
def c3Merge (ls : List (List ClassObj)) : Except String (List ClassObj) :=
  if !(ls.any (fun l => !l.isEmpty)) then .ok []
  else mergeLoop (totalLen ls + 1) ls

/-- `MlscriptClass.__init__` + `C3_MRO.resolve`: a class object is built
from its resolved parents at class-definition time; its stored MRO is
itself followed by the merge of the parents' MROs.  A merge failure
aborts the class definition (the exception propagates out of
`visit_ClassDef`). -/
def mkClass (cid : Nat) (cname : String) (methods : List (String × Nat))
    (parents : List ClassObj) : Except String ClassObj :=
  match c3Merge (parents.map mroList) with
  | .error e => .error e
  | .ok tail => .ok (.mk cid cname methods tail)

/-- `dict` lookup `name in cls.methods` / `cls.methods[name]`. -/
def lookupMethod (c : ClassObj) (nm : String) : Option Nat :=
  c.methods.lookup nm

/-- The scan of `MlscriptClass.find_method` over an MRO list: the first
class whose own method table contains the name, paired with the method
node it maps to. -/
def findMethodAux (nm : String) : List ClassObj → Option (Nat × ClassObj)
  | [] => none
  | k :: rest =>
    match lookupMethod k nm with
    | some mid => some (mid, k)
    | none => findMethodAux nm rest

/-- `MlscriptClass.find_method`: scan the class's stored MRO in order. -/
def find_method (c : ClassObj) (nm : String) : Option (Nat × ClassObj) :=
  findMethodAux nm (mroList c)

/-- A runtime instance (`MlscriptInstance`).  Only the class reference
matters for the claims below; fields are not consulted by the `super`
machinery. -/
structure Inst where
  klass : ClassObj

/-- A bound method (`MlscriptBoundMethod` as produced by the `super`
branch of `visit_AttributeAccess`): instance, method node id, and the
class the method was found on. -/
structure SBound where
  inst : Inst
  methodId : Nat
  definingClass : ClassObj

/-- Python `list.index` with identity comparison (used by
`visit_SuperNode` on `instance.klass.mro`; raises `ValueError`, i.e.
returns `none`, when absent). -/
def listIndexOfCid (target : Nat) : List ClassObj → Option Nat
  | [] => none
  | k :: rest =>
    if k.cid == target then some 0
    else
      match listIndexOfCid target rest with
      | some i => some (i + 1)
      | none => none

def msgSuperOutside : String := r"Runtime Error: super can only be used inside a class method."

def msgSuperNoValid : String := r"Runtime Error: super could not find a valid superclass in the MRO."

def msgSuperNoMethod : String := r"Runtime Error: No method found in superclass chain."

/-- `Interpreter.visit_SuperNode`: take the `(instance, defining_class)`
pair on top of the method-context stack (the stack grows by `append`,
modelled here with the top at the head), locate the defining class in
the instance's class MRO, and pair the instance with the class one
position later; a missing position or missing successor is an error. -/
def visitSuperNode (mctx : List (Inst × ClassObj)) : Except String (Inst × ClassObj) :=
  match mctx with
  | [] => .error msgSuperOutside
  | (inst, definingClass) :: _ =>
    let m := mroList inst.klass
    match listIndexOfCid definingClass.cid m with
    | none => .error msgSuperNoValid
    | some idx =>
      match m[idx + 1]? with
      | none => .error msgSuperNoValid
      | some s => .ok (inst, s)

/-- The `super` branch of `Interpreter.visit_AttributeAccess`: given the
`(instance, search_start_class)` pair produced by `visit_SuperNode`,
resolve the attribute with `search_start_class.find_method` (which scans
that class's own stored MRO) and build a bound method; failure is a
runtime error. -/
def superAttributeAccess (inst : Inst) (searchStart : ClassObj) (attr : String) :
    Except String SBound :=
  match find_method searchStart attr with
  | none => .error msgSuperNoMethod
  | some (mid, definingClass) => .ok ⟨inst, mid, definingClass⟩

/-- Evaluating `super` and then accessing an attribute on the result:
`visit_SuperNode` followed by the `super` branch of
`visit_AttributeAccess`. -/
def superLookup (mctx : List (Inst × ClassObj)) (attr : String) : Except String SBound :=
  match visitSuperNode mctx with
  | .error e => .error e
  | .ok (inst, searchStart) => superAttributeAccess inst searchStart attr

/-- The search the specification describes for `super`: scan the
instance's class MRO strictly after the position of the defining class
and return the first class there whose own method table defines the
attribute.  (This is the spec's wording, for comparison with
`superLookup`; the code instead searches the successor's own MRO.) -/
def specSuperSearch (instKlass : ClassObj) (definingClass : ClassObj) (attr : String) :
    Option (Nat × ClassObj) :=
  match listIndexOfCid definingClass.cid (mroList instKlass) with
  | none => none
  | some idx => findMethodAux attr ((mroList instKlass).drop (idx + 1))

/-! ## The tree-walking evaluator (`core.py`, `Interpreter`)

The AST subset below covers the node kinds the claims exercise
(`Number`, `StringLiteral`, `BooleanLiteral`, `Variable`, `BinOp`,
`ListLiteral`, `FunctionCall` with positional and keyword arguments;
statements: expression statement, `Assign`, `PrintStatement`, `Block`,
`IfStatement`, `WhileStatement`, `ForStatement`, `FunctionDef`,
`ReturnStatement`, `BreakStatement`, `ContinueStatement`,
`ThrowStatement`, `TryCatch`).  The exception-based signals become the
`Outcome` type, per the design notes of the spec; Python's `finally`
blocks become explicit handling of every outcome. -/

inductive Expr : Type where
  | num (n : Int)
  | strLit (s : String)
  | boolLit (b : Bool)
  | var (name : String)
  | binop (op : String) (l r : Expr)
  | listLit (elems : List Expr)
  | call (callee : Expr) (args : List Expr) (kwargs : List (String × Expr))

inductive Stmt : Type where
  | exprStmt (e : Expr)
  | assign (name : String) (e : Expr)
  | printStmt (es : List Expr)
  | block (ss : List Stmt)
  | ifStmt (cond : Expr) (thenB : Stmt) (elseB : Option Stmt)
  | whileStmt (cond : Expr) (body : Stmt)
  | forStmt (v : String) (iter : Expr) (body : Stmt)
  | funcDef (name : String) (params : List (String × Option Expr)) (body : Stmt)
  | ret (e : Expr)
  | brk
  | cont
  | throwStmt (e : Expr)
  | tryCatch (tryB : Stmt) (catchVar : String) (catchB : Option Stmt) (finB : Option Stmt)

/-- A `FunctionDef` node as stored in `Interpreter.functions`: name,
ordered parameter list (name, optional default expression), body. -/
structure FuncDef : Type where
  fname : String
  params : List (String × Option Expr)
  body : Stmt

/-- The runtime value domain reachable by the embedded subset. -/
inductive Value : Type where
  | vnone
  | int (n : Int)
  | str (s : String)
  | bool (b : Bool)
  | list (vs : List Value)
  | inst (i : Inst)

/-- A single quote character, used by the modelled Python `repr`. -/
def sq : String := String.singleton (Char.ofNat 39)

mutual
/-- Modelled from the spec and host: Python `str()` restricted to the
embedded value domain (the flag selects `repr`, which quotes strings,
as used for elements inside a printed list). -/
def pyStrF : Bool → Value → String
  | true, .str s => sq ++ s ++ sq
  | false, .str s => s
  | _, .vnone => r"None"
  | _, .int n => toString n
  | _, .bool true => r"True"
  | _, .bool false => r"False"
  | _, .list vs => r"[" ++ String.intercalate (r", ") (pyStrList vs) ++ r"]"
  | _, .inst i => r"<" ++ i.klass.cname ++ r" instance>"

def pyStrList : List Value → List String
  | [] => []
  | v :: vs => pyStrF true v :: pyStrList vs
end

def pyStr (v : Value) : String := pyStrF false v

def asciiLower (s : String) : String := String.mk (s.toList.map Char.toLower)

/-- One argument of `visit_PrintStatement`: a `bool` is rendered as
`str(value).lower()`, anything else is passed to `print` unchanged and
rendered by the host as `str(value)`. -/
def fmtPrintArg (v : Value) : String :=
  match v with
  | .bool _ => asciiLower (pyStr v)
  | _ => pyStr v

/-- `print(*values)`: arguments joined by single spaces. -/
def printLine (vs : List Value) : String :=
  String.intercalate (r" ") (vs.map fmtPrintArg)

/-- Modelled from the host: Python truthiness, as used by `if` and
`while` conditions. -/
def truthy : Value → Bool
  | .vnone => false
  | .int n => n != 0
  | .str s => !s.isEmpty
  | .bool b => b
  | .list vs => !vs.isEmpty
  | .inst _ => true

mutual
/-- Modelled from the host: Python `==` on the embedded domain (bools
compare equal to the integers 0/1; instances compare by identity, which
is not observable here and is unused by the claims). -/
def valueEq : Value → Value → Bool
  | .int a, .int b => a == b
  | .bool a, .bool b => a == b
  | .bool a, .int b => (if a then (1 : Int) else 0) == b
  | .int a, .bool b => a == (if b then (1 : Int) else 0)
  | .str a, .str b => a == b
  | .vnone, .vnone => true
  | .list as, .list bs => valueEqList as bs
  | _, _ => false

def valueEqList : List Value → List Value → Bool
  | [], [] => true
  | a :: as, b :: bs => valueEq a b && valueEqList as bs
  | _, _ => false
end

/-- Modelled from the host: Python `<` on numbers and strings; `none`
signals a host `TypeError` for unsupported operand pairs. -/
def valueLt : Value → Value → Option Bool
  | .int a, .int b => some (a < b)
  | .str a, .str b => some (a < b)
  | _, _ => none

def msgArith : String := r"Runtime Error: unsupported operands for arithmetic."

/-- Modelled from the spec: the numeric backend contract
`evaluate(op, left, right)` for `+ - * /` on plain values (ordinary
integer arithmetic; `+` also concatenates strings and lists, as the
host does).  True division produces floats and is outside this model,
so it reports an error; no claim exercises it. -/
def evaluatorArith (op : String) (l r : Value) : Except String Value :=
  if op == r"+" then
    match l, r with
    | .int a, .int b => .ok (.int (a + b))
    | .str a, .str b => .ok (.str (a ++ b))
    | .list a, .list b => .ok (.list (a ++ b))
    | _, _ => .error msgArith
  else if op == r"-" then
    match l, r with
    | .int a, .int b => .ok (.int (a - b))
    | _, _ => .error msgArith
  else if op == r"*" then
    match l, r with
    | .int a, .int b => .ok (.int (a * b))
    | _, _ => .error msgArith
  else .error msgArith

/-- Interpreter state: the scope stack and variable store of the
external evaluator (modelled from the spec: a stack of frames, lookup
from the newest frame to the oldest, writes to the nearest frame that
already holds the name or else to the innermost frame), the
user-defined function table, the method-context stack (top at the
head), and the printed output. -/
structure St : Type where
  scopes : List (List (String × Value))
  functions : List (String × FuncDef)
  mctx : List (Inst × ClassObj)
  out : List String

def enterScope (st : St) : St := { st with scopes := [] :: st.scopes }

def exitScope (st : St) : St := { st with scopes := st.scopes.tail }

def frameHas (f : List (String × Value)) (n : String) : Bool :=
  f.any (fun p => p.1 == n)

def frameSet : List (String × Value) → String → Value → List (String × Value)
  | [], n, v => [(n, v)]
  | (m, w) :: rest, n, v =>
    if m == n then (m, v) :: rest else (m, w) :: frameSet rest n v

def scopesSet : List (List (String × Value)) → String → Value → List (List (String × Value))
  | [], n, v => [[(n, v)]]
  | f :: rest, n, v =>
    if frameHas f n then frameSet f n v :: rest
    else if rest.any (fun fr => frameHas fr n) then f :: scopesSet rest n v
    else ((n, v) :: f) :: rest

def setVar (st : St) (n : String) (v : Value) : St :=
  { st with scopes := scopesSet st.scopes n v }

def scopesGet : List (List (String × Value)) → String → Option Value
  | [], _ => none
  | f :: rest, n =>
    match f.lookup n with
    | some v => some v
    | none => scopesGet rest n

def getVar (st : St) (n : String) : Option Value := scopesGet st.scopes n

/-- Evaluation results: a plain value, the control-flow signals
(`ReturnSignal`, `BreakSignal`, `ContinueSignal`, `MlscriptThrow`), or
a runtime error (any other Python exception). -/
inductive Outcome : Type where
  | val (v : Value)
  | ret (v : Value)
  | brk
  | cont
  | thrown (v : Value)
  | err (msg : String)

def msgFuel : String := r"Runtime Error: fuel exhausted."

def msgUndefinedVar : String := r"Runtime Error: Undefined variable."

def msgNotAFunction : String := r"Runtime Error: value is not a function."

def msgUnsupportedOp : String := r"Runtime Error: unsupported binary operator."

def msgCompare : String := r"Runtime Error: unsupported operands for comparison."

def msgForIterable : String := r"Runtime Error: for loop can only iterate over a list, string, tuple or range."

def msgNoSelf : String := r"Error: Method has no self parameter."

def msgTooManyArgs : String := r"Error: Function received too many positional arguments."

def msgMultipleValues : String := r"Error: Function got multiple values for argument."

def msgUnexpectedKw : String := r"Error: Function got an unexpected keyword argument."

def msgMissingArg : String := r"Error: Function missing required argument."

def msgInternal : String := r"Runtime Error: internal."

/-- The tail of `_call_function` (the `except ReturnSignal` handler and
the `finally` block): a `ReturnSignal` becomes the call's value, the
scope is closed, and for a method call the context pair is popped —
on every exit path. -/
def finishCall (selfp : Option (Inst × ClassObj)) (pre : Outcome × St) : Outcome × St :=
  let rb :=
    match pre.1 with
    | .ret v => Outcome.val v
    | o => o
  let s3 := exitScope pre.2
  match selfp with
  | some _ => (rb, { s3 with mctx := s3.mctx.tail })
  | none => (rb, s3)

/-- Sequencing with Python exception propagation: run the continuation
only when the first step produced a plain value. -/
def bindRes (r : Outcome × St) (k : Value → St → Outcome × St) : Outcome × St :=
  match r with
  | (.val v, s) => k v s
  | other => other

/-- Like `bindRes`, for helpers that encode a list of values as
`.val (.list vs)`. -/
def bindListRes (r : Outcome × St) (k : List Value → St → Outcome × St) : Outcome × St :=
  match r with
  | (.val (.list vs), s) => k vs s
  | (.val _, s) => (.err msgInternal, s)
  | other => other

/-- `visit_BinOp` once both operands are evaluated: `+ - * /` delegate
to the backend `evaluate`, comparisons and equality are evaluated
natively. -/
def applyBinop (op : String) (l r : Value) : Outcome :=
  if op == r"+" || op == r"-" || op == r"*" || op == r"/" then
    match evaluatorArith op l r with
    | .ok v => .val v
    | .error m => .err m
  else if op == r"==" then .val (.bool (valueEq l r))
  else if op == r"!=" then .val (.bool (!valueEq l r))
  else if op == r"<" then
    match valueLt l r with
    | some b => .val (.bool b)
    | none => .err msgCompare
  else if op == r">" then
    match valueLt r l with
    | some b => .val (.bool b)
    | none => .err msgCompare
  else if op == r"<=" then
    match valueLt r l with
    | some b => .val (.bool (!b))
    | none => .err msgCompare
  else if op == r">=" then
    match valueLt l r with
    | some b => .val (.bool (!b))
    | none => .err msgCompare
  else .err msgUnsupportedOp

/-- The `isinstance(iterable_value, (list, str, range, tuple))` check of
`visit_ForStatement`; a string iterates over its one-character
substrings (ranges and tuples are not in the embedded domain). -/
def iterItems : Value → Option (List Value)
  | .list vs => some vs
  | .str s => some (s.toList.map (fun c => .str (String.singleton c)))
  | _ => none

/-- Step 1 of `_call_function`: an instance binds to the first
parameter, which is then removed from the lists to match against. -/
def prepareSelf (selfp : Option (Inst × ClassObj)) (params : List (String × Option Expr)) :
    Except String (List (String × Option Expr) × List (String × Value)) :=
  match selfp with
  | none => .ok (params, [])
  | some (inst, _) =>
    match params with
    | [] => .error msgNoSelf
    | (selfName, _) :: rest => .ok (rest, [(selfName, Value.inst inst)])

/-- Python `dict` assignment on the `final_args` map: replace an
existing key, else append. -/
def dictSet (d : List (String × Value)) (k : String) (v : Value) : List (String × Value) :=
  if (d.lookup k).isSome then frameSet d k v else d ++ [(k, v)]

/-- Step 2 of `_call_function`: match positional arguments to the
remaining parameter names left to right; excess positional arguments or
a clash with a keyword argument is an error. -/
def bindPositional : List Value → List String → List String → List (String × Value) →
    Except String (List (String × Value))
  | [], _, _, fa => .ok fa
  | _ :: _, [], _, _ => .error msgTooManyArgs
  | a :: as, pn :: pns, kwKeys, fa =>
    if kwKeys.contains pn then .error msgMultipleValues
    else bindPositional as pns kwKeys (dictSet fa pn a)

/-- Step 3 of `_call_function`: apply keyword arguments by name; a name
outside the parameter list or already bound is an error. -/
def bindKeywords : List (String × Value) → List String → List (String × Value) →
    Except String (List (String × Value))
  | [], _, fa => .ok fa
  | (k, v) :: rest, paramNames, fa =>
    if !(paramNames.contains k) then .error msgUnexpectedKw
    else if (fa.lookup k).isSome then .error msgMultipleValues
    else bindKeywords rest paramNames (dictSet fa k v)

mutual

/-- `Interpreter.visit` on expressions, with fuel bounding the
recursion depth (every recursive call consumes one unit; all claims
evaluate with enough fuel). -/
def evalExpr : Nat → Expr → St → Outcome × St
  | 0, _, st => (.err msgFuel, st)
  | f + 1, e, st =>
    match e with
    | .num n => (.val (.int n), st)
    | .strLit s => (.val (.str s), st)
    | .boolLit b => (.val (.bool b), st)
    | .var n =>
      match getVar st n with
      | some v => (.val v, st)
      | none => (.err msgUndefinedVar, st)
    | .binop op l r =>
      bindRes (evalExpr f l st) (fun lv st1 =>
        bindRes (evalExpr f r st1) (fun rv st2 =>
          (applyBinop op lv rv, st2)))
    | .listLit es => evalExprList f es st
    | .call callee args kws =>
      bindListRes (evalExprList f args st) (fun argVals st1 =>
        bindListRes (evalExprList f (kws.map Prod.snd) st1) (fun kwVals st2 =>
          let kwargs := (kws.map Prod.fst).zip kwVals
          match callee with
          | .var nm =>
            match st2.functions.lookup nm with
            | some fd => callFunction f fd argVals kwargs none st2
            | none =>
              bindRes (evalExpr f callee st2) (fun _ st3 => (.err msgNotAFunction, st3))
          | _ =>
            bindRes (evalExpr f callee st2) (fun _ st3 => (.err msgNotAFunction, st3))))

/-- Evaluation of an expression list (argument/element comprehensions),
encoding success as `.val (.list vs)`. -/
def evalExprList : Nat → List Expr → St → Outcome × St
  | 0, _, st => (.err msgFuel, st)
  | _ + 1, [], st => (.val (.list []), st)
  | f + 1, e :: es, st =>
    bindRes (evalExpr f e st) (fun v st1 =>
      bindListRes (evalExprList f es st1) (fun vs st2 =>
        (.val (.list (v :: vs)), st2)))

/-- `Interpreter.visit` on statements. -/
def execStmt : Nat → Stmt → St → Outcome × St
  | 0, _, st => (.err msgFuel, st)
  | f + 1, s, st =>
    match s with
    | .exprStmt e => evalExpr f e st
    | .assign n e =>
      bindRes (evalExpr f e st) (fun v st1 => (.val .vnone, setVar st1 n v))
    | .printStmt es =>
      bindListRes (evalExprList f es st) (fun vs st1 =>
        (.val .vnone, { st1 with out := st1.out ++ [printLine vs] }))
    | .block ss => execStmtList f ss st
    | .ifStmt c t el =>
      bindRes (evalExpr f c st) (fun v st1 =>
        if truthy v then execStmt f t st1
        else
          match el with
          | some eb => execStmt f eb st1
          | none => (.val .vnone, st1))
    | .whileStmt c b => execWhile f c b st
    | .forStmt v it b =>
      bindRes (evalExpr f it st) (fun iv st1 =>
        match iterItems iv with
        | none => (.err msgForIterable, st1)
        | some items =>
          match runForItems f v b items (enterScope st1) with
          | (.val _, st2) => (.val .vnone, exitScope st2)
          | (o, st2) => (o, st2))
    | .funcDef nm ps bd =>
      (.val .vnone, { st with functions := (nm, ⟨nm, ps, bd⟩) :: st.functions })
    | .ret e => bindRes (evalExpr f e st) (fun v st1 => (.ret v, st1))
    | .brk => (.brk, st)
    | .cont => (.cont, st)
    | .throwStmt e => bindRes (evalExpr f e st) (fun v st1 => (.thrown v, st1))
    | .tryCatch t cv cb fb => execFin f fb (execCatch f cv cb (execStmt f t st))

/-- The `except MlscriptThrow` arm of `visit_TryCatch`: only a thrown
value reaches the catch block, which runs in a fresh scope with the
value bound to the catch variable; the scope is closed only when the
catch body completes normally (the source has no `finally` around
`exit_scope` there).  Without a catch block the throw re-raises; every
other outcome passes through untouched. -/
def execCatch : Nat → String → Option Stmt → Outcome × St → Outcome × St
  | 0, _, _, r => (.err msgFuel, r.2)
  | f + 1, cv, cb, r =>
    match r with
    | (.thrown v, s1) =>
      match cb with
      | some c =>
        match execStmt f c (setVar (enterScope s1) cv v) with
        | (.val _, sc) => (.val .vnone, exitScope sc)
        | (o, sc) => (o, sc)
      | none => (.thrown v, s1)
    | other => other

/-- The `finally` of `visit_TryCatch`: the finally block (when present)
runs exactly once on whatever state the try/catch phase left, and its
own signal or error replaces the pending outcome; otherwise the pending
outcome survives. -/
def execFin : Nat → Option Stmt → Outcome × St → Outcome × St
  | 0, _, r => (.err msgFuel, r.2)
  | f + 1, fb, r =>
    match fb with
    | some fblk =>
      match execStmt f fblk r.2 with
      | (.val _, sf) => (r.1, sf)
      | (rf, sf) => (rf, sf)
    | none => r

/-- `visit_Block`: run statements in order, stopping at the first
signal or error. -/
def execStmtList : Nat → List Stmt → St → Outcome × St
  | 0, _, st => (.err msgFuel, st)
  | _ + 1, [], st => (.val .vnone, st)
  | f + 1, s :: rest, st =>
    match execStmt f s st with
    | (.val _, st1) => execStmtList f rest st1
    | other => other

/-- `visit_WhileStatement`: re-test the condition before every
iteration; `break` and `continue` unwind exactly this loop. -/
def execWhile : Nat → Expr → Stmt → St → Outcome × St
  | 0, _, _, st => (.err msgFuel, st)
  | f + 1, c, b, st =>
    bindRes (evalExpr f c st) (fun v st1 =>
      if truthy v then
        match execStmt f b st1 with
        | (.val _, st2) => execWhile f c b st2
        | (.cont, st2) => execWhile f c b st2
        | (.brk, st2) => (.val .vnone, st2)
        | (o, st2) => (o, st2)
      else (.val .vnone, st1))

/-- The iteration loop of `visit_ForStatement`: rebind the loop
variable in the already opened loop frame, run the body, catch `break`
and `continue`; any other signal escapes the loop (and, in the source,
skips the `exit_scope` call — the caller treats a `.val` result as the
in-loop exit and everything else as an escape). -/
def runForItems : Nat → String → Stmt → List Value → St → Outcome × St
  | 0, _, _, _, st => (.err msgFuel, st)
  | _ + 1, _, _, [], st => (.val .vnone, st)
  | f + 1, v, b, item :: rest, st =>
    match execStmt f b (setVar st v item) with
    | (.val _, st2) => runForItems f v b rest st2
    | (.cont, st2) => runForItems f v b rest st2
    | (.brk, st2) => (.val .vnone, st2)
    | (o, st2) => (o, st2)

/-- The parameter-binding loop inside the `try` of `_call_function`:
bound arguments are assigned, unbound parameters evaluate their default
lazily in the callee's fresh scope, the first parameter of a method is
skipped if somehow unbound, and anything else is a missing-argument
error. -/
def bindParams : Nat → Option String → Bool → List (String × Option Expr) →
    List (String × Value) → St → Outcome × St
  | 0, _, _, _, _, st => (.err msgFuel, st)
  | _ + 1, _, _, [], _, st => (.val .vnone, st)
  | f + 1, firstName, isMethod, (pn, defOpt) :: rest, fa, st =>
    match fa.lookup pn with
    | some v => bindParams f firstName isMethod rest fa (setVar st pn v)
    | none =>
      match defOpt with
      | some d =>
        bindRes (evalExpr f d st) (fun dv st1 =>
          bindParams f firstName isMethod rest fa (setVar st1 pn dv))
      | none =>
        if isMethod && firstName == some pn then
          bindParams f firstName isMethod rest fa st
        else (.err msgMissingArg, st)

/-- The `try` block of `_call_function`: the parameter-binding loop
followed by the body; a body that completes normally yields the
function result `None` (`visit_Block` returns `None`), every signal —
including `ReturnSignal`, handled by the caller — propagates. -/
def bindAndRun : Nat → Option String → Bool → List (String × Option Expr) →
    List (String × Value) → Stmt → St → Outcome × St
  | 0, _, _, _, _, _, st => (.err msgFuel, st)
  | f + 1, firstName, isMethod, params, finalArgs, body, st =>
    match bindParams f firstName isMethod params finalArgs st with
    | (.val _, s1) =>
      match execStmt f body s1 with
      | (.val _, s2) => (.val .vnone, s2)
      | other => other
    | other => other

/-- `Interpreter._call_function`: bind the receiver and the arguments,
push the method context (methods only), open a scope, assign parameters
and run the body, catch `ReturnSignal`, and — in a `finally` — close
the scope and pop the method context on every exit path. -/
def callFunction : Nat → FuncDef → List Value → List (String × Value) →
    Option (Inst × ClassObj) → St → Outcome × St
  | 0, _, _, _, _, st => (.err msgFuel, st)
  | f + 1, fd, args, kwargs, selfp, st =>
    match prepareSelf selfp fd.params with
    | .error m => (.err m, st)
    | .ok (activeParams, fa0) =>
      let activeNames := activeParams.map Prod.fst
      match bindPositional args activeNames (kwargs.map Prod.fst) fa0 with
      | .error m => (.err m, st)
      | .ok fa1 =>
        match bindKeywords kwargs activeNames fa1 with
        | .error m => (.err m, st)
        | .ok finalArgs =>
          let stP :=
            match selfp with
            | some pr => { st with mctx := pr :: st.mctx }
            | none => st
          finishCall selfp
            (bindAndRun f activeNames.head? selfp.isSome activeParams finalArgs fd.body
              (enterScope stP))

end

/-- `MlscriptBoundMethod.__call__`: delegate to `_call_function` with
the bound instance and the defining class. -/
structure BoundM : Type where
  inst : Inst
  definingClass : ClassObj
  fd : FuncDef

def boundMethodCall (f : Nat) (bm : BoundM) (args : List Value)
    (kwargs : List (String × Value)) (st : St) : Outcome × St :=
  callFunction f bm.fd args kwargs (some (bm.inst, bm.definingClass)) st

/-! ## The lexer (`lexer.py`)

`tokenize` scans the input with one big alternation built from
`token_spec` in order; at every position the first pattern that matches
wins (each individual pattern being greedy), `COMMENT`, `NEWLINE`,
`SKIP` and — notably — `MISMATCH` (the final catch-all `.`) produce no
token, and an explicit `EOF` token carrying the final line number is
appended.  The scanner below tries the same patterns in the same
order. -/

inductive TokKind : Type where
  | INTEGER | FLOAT | STRING | IDENT | ASSIGN | PLUS | MINUS | MUL | DIV
  | LPAREN | RPAREN | LBRACE | RBRACE | COMMA | PRINT | FUN | RETURN
  | IF | ELIF | ELSE | WHILE | FOR | IN
  | EQ | NE | GT | GTE | LT | LTE | EOF

/-- Token values: `INTEGER` is converted with `int()`, `FLOAT` with
`float()` (the host float is kept as its matched text, opaque to this
model), `STRING` is stripped of its quotes, everything else keeps the
matched text; the `EOF` token carries `None`. -/
inductive TokVal : Type where
  | vnone
  | vint (n : Nat)
  | vfloat (raw : String)
  | vstr (s : String)

def newlineChar : Char := Char.ofNat 10

def tabChar : Char := Char.ofNat 9

def quoteChar : Char := Char.ofNat 34

def underscoreChar : Char := Char.ofNat 95

def lbraceChar : Char := Char.ofNat 123

def rbraceChar : Char := Char.ofNat 125

/-- The regex `\w` over the lexer's ASCII alphabet. -/
def isWordChar (c : Char) : Bool := c.isAlphanum || c == underscoreChar

def kwSpecs : List (String × TokKind) :=
  [(r"if", .IF), (r"elif", .ELIF), (r"else", .ELSE), (r"while", .WHILE),
   (r"for", .FOR), (r"in", .IN), (r"fun", .FUN), (r"return", .RETURN),
   (r"print", .PRINT)]

/-- `kw\b`: the literal keyword followed by a word boundary. -/
def tryKw (cs : List Char) : List (String × TokKind) → Option (TokKind × String)
  | [] => none
  | (kw, k) :: rest =>
    let kcs := kw.toList
    if kcs.isPrefixOf cs then
      match (cs.drop kcs.length).head? with
      | some d => if isWordChar d then tryKw cs rest else some (k, kw)
      | none => some (k, kw)
    else tryKw cs rest

def twoCharOps : List (String × TokKind) :=
  [(r"==", .EQ), (r"!=", .NE), (r">=", .GTE), (r"<=", .LTE)]

def oneCharOps : List (String × TokKind) :=
  [(r">", .GT), (r"<", .LT), (r"=", .ASSIGN), (r"+", .PLUS), (r"-", .MINUS),
   (r"*", .MUL), (r"/", .DIV), (r"(", .LPAREN), (r")", .RPAREN),
   (String.singleton lbraceChar, .LBRACE), (String.singleton rbraceChar, .RBRACE),
   (r",", .COMMA)]

def tryOps (cs : List Char) : List (String × TokKind) → Option (TokKind × String)
  | [] => none
  | (op, k) :: rest =>
    if op.toList.isPrefixOf cs then some (k, op) else tryOps cs rest

/-- `\d+\.\d+` (greedy digit runs around a literal dot). -/
def matchFloat (cs : List Char) : Option Nat :=
  let d1 := cs.takeWhile Char.isDigit
  if d1.isEmpty then none
  else
    match cs.drop d1.length with
    | dot :: rest2 =>
      if dot == '.' then
        let d2 := rest2.takeWhile Char.isDigit
        if d2.isEmpty then none else some (d1.length + 1 + d2.length)
      else none
    | [] => none

def digitsToNat (ds : List Char) : Nat :=
  ds.foldl (fun acc c => acc * 10 + (c.toNat - 48)) 0

/-- One scan position: which `token_spec` entry matches first, and how
many characters it consumes. -/
inductive ScanOut : Type where
  | emit (k : TokKind) (v : TokVal) (consumed : Nat)
  | skipN (consumed : Nat)
  | newline
  | mismatchSkip

/-- The alternation of `token_spec`, tried in declaration order at the
current position: comment, newline, whitespace run, the keywords (with
word boundary), float, integer, string, identifier, two-character
operators, one-character operators, and finally the catch-all
`MISMATCH` single character. -/
def scanStep : List Char → ScanOut
  | [] => .skipN 0
  | c :: rest =>
    let cs := c :: rest
    if c == '/' && rest.head? == some '/' then
      .skipN (2 + ((rest.drop 1).takeWhile (fun d => d != newlineChar)).length)
    else if c == newlineChar then .newline
    else if c == ' ' || c == tabChar then
      .skipN (1 + (rest.takeWhile (fun d => d == ' ' || d == tabChar)).length)
    else
      match tryKw cs kwSpecs with
      | some (k, kw) => .emit k (.vstr kw) kw.length
      | none =>
        match matchFloat cs with
        | some n => .emit .FLOAT (.vfloat (String.mk (cs.take n))) n
        | none =>
          let d1 := cs.takeWhile Char.isDigit
          if !d1.isEmpty then .emit .INTEGER (.vint (digitsToNat d1)) d1.length
          else if c == quoteChar then
            let content := rest.takeWhile (fun d => d != quoteChar)
            if (rest.drop content.length).head? == some quoteChar then
              .emit .STRING (.vstr (String.mk content)) (content.length + 2)
            else .mismatchSkip
          else if c.isAlpha || c == underscoreChar then
            let w := rest.takeWhile isWordChar
            .emit .IDENT (.vstr (String.mk (c :: w))) (1 + w.length)
          else
            match tryOps cs twoCharOps with
            | some (k, op) => .emit k (.vstr op) op.length
            | none =>
              match tryOps cs oneCharOps with
              | some (k, op) => .emit k (.vstr op) op.length
              | none => .mismatchSkip

/-- The `re.finditer` loop of `tokenize`: `COMMENT` and `SKIP` produce
nothing, `NEWLINE` only increments the line counter, and `MISMATCH` —
an unrecognized character — is silently discarded exactly like
whitespace; every other match appends a `(kind, value, line)` token.
Fuel bounds the scan (each step consumes at least one character, so
`length + 1` always suffices). -/
def tokenizeGo : Nat → List Char → Nat → List (TokKind × TokVal × Nat)
  | 0, _, line => [(.EOF, .vnone, line)]
  | _ + 1, [], line => [(.EOF, .vnone, line)]
  | f + 1, c :: rest, line =>
    match scanStep (c :: rest) with
    | .emit k v n => (k, v, line) :: tokenizeGo f ((c :: rest).drop n) line
    | .skipN n => tokenizeGo f ((c :: rest).drop n) line
    | .newline => tokenizeGo f rest (line + 1)
    | .mismatchSkip => tokenizeGo f rest line

def tokenize (code : String) : List (TokKind × TokVal × Nat) :=
  tokenizeGo (code.length + 1) code.toList 1

/-! ## The parser's assignment dispatch (`parser.py`,
`Parser.assignment_or_expression_statement`, lines 62-75)

After parsing a full expression and seeing `=`, the parser parses the
right-hand side and dispatches on the shape of the already-built left
expression node: a `Variable` becomes `Assign`, an `IndexAccess`
becomes `IndexAssign`, and anything else — including an
`AttributeAccess` — raises a `SyntaxError`.  The expression node shapes
the full parser can build on the left of `=` are listed here. -/

inductive PExpr : Type where
  | pvar (name : String)
  | pindex (collection : PExpr) (index : List PExpr)
  | pattr (obj : PExpr) (attrName : String)
  | pnum (n : Int)
  | pstr (s : String)
  | pbinop (op : String) (l r : PExpr)
  | pcall (callee : PExpr) (args : List PExpr)

inductive PStmt : Type where
  | passign (v : String) (rhs : PExpr)
  | pindexAssign (collection : PExpr) (index : List PExpr) (rhs : PExpr)

def msgAssignLhs : String :=
  r"The left-hand side of an assignment must be a variable or an index."

/-- Lines 69-74 of `parser.py`: the dispatch on the left-hand side. -/
def assignmentDispatch (lhs : PExpr) (rhs : PExpr) : Except String PStmt :=
  match lhs with
  | .pvar n => .ok (.passign n rhs)
  | .pindex c i => .ok (.pindexAssign c i rhs)
  | _ => .error msgAssignLhs

def isVarOrIndex : PExpr → Bool
  | .pvar _ => true
  | .pindex _ _ => true
  | _ => false

/-! ## Concrete hierarchies and programs used by the theorems -/

/-- `class A { fun m(self){...} }` — method node id 0. -/
def clsA : ClassObj := .mk 0 (r"A") [(r"m", 0)] []

/-- `class B inherits A { }`. -/
def clsB : ClassObj := .mk 1 (r"B") [] [clsA]

/-- `class C inherits A { fun m(self){...} }` — method node id 1. -/
def clsC : ClassObj := .mk 2 (r"C") [(r"m", 1)] [clsA]

/-- `class D inherits B, C { fun m(self){...} }` — method node id 2;
its stored MRO tail is the C3 merge `[B, C, A]`. -/
def clsD : ClassObj := .mk 3 (r"D") [(r"m", 2)] [clsB, clsC, clsA]

/-- The initial interpreter state: one (empty) global frame, no
user-defined functions, empty method-context stack, no output. -/
def st0 : St := ⟨[[]], [], [], []⟩

/-- `fun f(a, b=2){ return a + b }`. -/
def fdF : FuncDef :=
  ⟨r"f", [(r"a", none), (r"b", some (.num 2))],
    .block [.ret (.binop (r"+") (.var (r"a")) (.var (r"b")))]⟩

/-- The state after executing the definition of `f` in `st0`. -/
def stF : St := ⟨[[]], [(r"f", fdF)], [], []⟩

/-- `try { throw 5 } catch (e) { print(e) } finally { print("done") }`. -/
def tryProg : Stmt :=
  .tryCatch (.block [.throwStmt (.num 5)]) (r"e")
    (some (.block [.printStmt [.var (r"e")]]))
    (some (.block [.printStmt [.strLit (r"done")]]))

/-- `for x in [1, 2, 3] { }`. -/
def forEmpty : Stmt :=
  .forStmt (r"x") (.listLit [.num 1, .num 2, .num 3]) (.block [])

/-- `for x in [1, 2, 3] { break }`. -/
def forBreak : Stmt :=
  .forStmt (r"x") (.listLit [.num 1, .num 2, .num 3]) (.block [.brk])

/-- `for x in [1] { throw 7 }`. -/
def forThrow : Stmt :=
  .forStmt (r"x") (.listLit [.num 1]) (.block [.throwStmt (.num 7)])

/-- `for x in [1, 2] { if (x == 2) { print(z) } z = 100 }` — the second
iteration reads the binding the first iteration created, observable
only if the whole loop shares one scope frame. -/
def forShared : Stmt :=
  .forStmt (r"x") (.listLit [.num 1, .num 2])
    (.block
      [.ifStmt (.binop (r"==") (.var (r"x")) (.num 2))
        (.block [.printStmt [.var (r"z")]]) none,
       .assign (r"z") (.num 100)])

/-! ## Theorems -/

/-- C2: for the diamond `B inherits A`, `C inherits A`,
`D inherits B, C` (parents in that order), the MRO computed at each
class-definition time succeeds, and the MRO of `D` is exactly
`[D, B, C, A]`. -/
theorem C2_diamond_mro :
    mkClass 0 (r"A") [(r"m", 0)] [] = .ok clsA ∧
    mkClass 1 (r"B") [] [clsA] = .ok clsB ∧
    mkClass 2 (r"C") [(r"m", 1)] [clsA] = .ok clsC ∧
    mkClass 3 (r"D") [(r"m", 2)] [clsB, clsC] = .ok clsD ∧
    (mroList clsD).map ClassObj.cname = [r"D", r"B", r"C", r"A"] :=
  ⟨rfl, rfl, rfl, rfl, rfl⟩

/-- C3 (failing input): for `class E inherits A, B` where
`B inherits A`, no linearization can satisfy both local precedence
(`A` before `B`, the declared order) and `B`'s own MRO (`B` before
`A`), so C3 linearization must fail — but `C3_MRO` merges only the
parents' MROs, omitting the literal parent list, and silently returns
the MRO `[E, B, A]`, reordering the declared parents instead of
raising a resolution error. -/
theorem C3_missing_parent_list_bug :
    mkClass 4 (r"E") [] [clsA, clsB] = .ok (.mk 4 (r"E") [] [clsB, clsA]) ∧
    (mroList (.mk 4 (r"E") [] [clsB, clsA])).map ClassObj.cname = [r"E", r"B", r"A"] :=
  ⟨rfl, rfl⟩

/-- C1 (counterexample): a `D` instance executing the method defined on
`D` itself evaluates `super` and accesses `m`.  The instance MRO is
`[D, B, C, A]`, so searching it strictly after `D`'s position would
find `C.m` (method node 1); the code instead searches the successor
`B`'s own MRO `[B, A]` and resolves `A.m` (method node 0, defining
class `A` ≠ `C`). -/
theorem C1_counterexample :
    superLookup [(⟨clsD⟩, clsD)] (r"m") = .ok ⟨⟨clsD⟩, 0, clsA⟩ ∧
    specSuperSearch clsD clsD (r"m") = some (1, clsC) ∧
    clsA.cid ≠ clsC.cid :=
  ⟨rfl, rfl, by decide⟩

/-- C8 (counterexample): an `AttributeAccess` left-hand side (`a.b = 5`)
is not accepted by the assignment dispatch; it raises the parse error
instead of producing an `AttributeAssign` node. -/
theorem C8_counterexample :
    assignmentDispatch (.pattr (.pvar (r"a")) (r"b")) (.pnum 5) = .error msgAssignLhs :=
  rfl

/-- C8 (amended): the assignment dispatch accepts exactly a `Variable`
(producing `Assign`) or an `IndexAccess` (producing `IndexAssign`);
every other left-hand side — including `AttributeAccess` — raises the
parse error. -/
theorem C8_amended :
    (∀ n rhs, assignmentDispatch (.pvar n) rhs = .ok (.passign n rhs)) ∧
    (∀ c i rhs, assignmentDispatch (.pindex c i) rhs = .ok (.pindexAssign c i rhs)) ∧
    (∀ lhs rhs, isVarOrIndex lhs = false → assignmentDispatch lhs rhs = .error msgAssignLhs) := by
  refine ⟨fun n rhs => rfl, fun c i rhs => rfl, fun lhs rhs h => ?_⟩
  cases lhs <;> first
    | rfl
    | simp [isVarOrIndex] at h

/-- C8 (witness): the amended theorem applied to the attribute-access
left-hand side `x.y`. -/
theorem C8_amended_witness :
    isVarOrIndex (.pattr (.pvar (r"x")) (r"y")) = false ∧
    assignmentDispatch (.pattr (.pvar (r"x")) (r"y")) (.pnum 1) = .error msgAssignLhs :=
  ⟨rfl, C8_amended.2.2 (.pattr (.pvar (r"x")) (r"y")) (.pnum 1) rfl⟩

/-- C6 (counterexample): tokenizing the input consisting of the single
character `$`, which matches no token pattern, does not fail — it
produces no token at all, only the `EOF` marker. -/
theorem C6_counterexample :
    tokenize (String.singleton (Char.ofNat 36)) = [(.EOF, .vnone, 1)] :=
  rfl

/-- C6 (amended): a character on which the scanner's first match is the
`MISMATCH` catch-all is silently discarded — the token stream continues
with the rest of the input, no error is raised and no token is emitted;
concretely, `1$2` lexes to the two integers with the `$` dropped. -/
theorem C6_silent_mismatch_skip :
    (∀ (f : Nat) (c : Char) (rest : List Char) (line : Nat),
      scanStep (c :: rest) = .mismatchSkip →
      tokenizeGo (f + 1) (c :: rest) line = tokenizeGo f rest line) ∧
    tokenize (r"1$2") =
      [(.INTEGER, .vint 1, 1), (.INTEGER, .vint 2, 1), (.EOF, .vnone, 1)] := by
  refine ⟨fun f c rest line h => ?_, rfl⟩
  simp only [tokenizeGo, h]

/-- C6 (witness): the amended theorem applied to the lone `$`
character. -/
theorem C6_silent_mismatch_skip_witness :
    scanStep [Char.ofNat 36] = .mismatchSkip ∧
    tokenizeGo 1 [Char.ofNat 36] 1 = tokenizeGo 0 [] 1 :=
  ⟨rfl, C6_silent_mismatch_skip.1 0 (Char.ofNat 36) [] 1 rfl⟩

/-- C10: `print` renders a boolean as the lowercase text `true` /
`false` (via `str(value).lower()`, distinct from the host's
capitalized `True` / `False`), and every non-boolean value by its
ordinary `str` representation; a whole `print(true)` statement appends
exactly the line `true`. -/
theorem C10_print_bool_lowercase :
    fmtPrintArg (.bool true) = r"true" ∧
    fmtPrintArg (.bool false) = r"false" ∧
    (∀ n : Int, fmtPrintArg (.int n) = pyStr (.int n)) ∧
    (∀ s : String, fmtPrintArg (.str s) = pyStr (.str s)) ∧
    (∀ vs : List Value, fmtPrintArg (.list vs) = pyStr (.list vs)) ∧
    fmtPrintArg .vnone = pyStr .vnone ∧
    (∀ i : Inst, fmtPrintArg (.inst i) = pyStr (.inst i)) ∧
    pyStr (.bool true) = r"True" ∧
    pyStr (.bool false) = r"False" ∧
    execStmt 9 (.printStmt [.boolLit true]) st0 = (.val .vnone, { st0 with out := [r"true"] }) :=
  ⟨rfl, rfl, fun _ => rfl, fun _ => rfl, fun _ => rfl, rfl, fun _ => rfl, rfl, rfl, rfl⟩

/-- C4: for `fun f(a, b=2){ return a + b }`: `f(1)` yields `3`,
`f(1, 5)` yields `6`, `f(b=9, a=1)` yields `10`, `f(1, 2, 3)` raises
the too-many-arguments error, and any call passing `a` both
positionally and by keyword raises the multiple-values error.  (The
function and call ASTs are modelled from the spec grammar — the parser
in this snapshot predates default and keyword arguments — and binding
follows `_call_function`.) -/
theorem C4_argument_binding :
    execStmt 9 (.funcDef (r"f") fdF.params fdF.body) st0 = (.val .vnone, stF) ∧
    evalExpr 9 (.call (.var (r"f")) [.num 1] []) stF = (.val (.int 3), stF) ∧
    evalExpr 9 (.call (.var (r"f")) [.num 1, .num 5] []) stF = (.val (.int 6), stF) ∧
    evalExpr 9 (.call (.var (r"f")) [] [(r"b", .num 9), (r"a", .num 1)]) stF
      = (.val (.int 10), stF) ∧
    evalExpr 9 (.call (.var (r"f")) [.num 1, .num 2, .num 3] []) stF
      = (.err msgTooManyArgs, stF) ∧
    (∀ n m : Int, evalExpr 9 (.call (.var (r"f")) [.num n] [(r"a", .num m)]) stF
      = (.err msgMultipleValues, stF)) :=
  ⟨rfl, rfl, rfl, rfl, rfl, fun _ _ => rfl⟩

/-- One-step unfolding of `execStmt` on a try statement. -/
lemma execStmt_tryCatch (f : Nat) (t : Stmt) (cv : String) (cb : Option Stmt)
    (fb : Option Stmt) (st : St) :
    execStmt (f + 1) (.tryCatch t cv cb fb) st =
      execFin f fb (execCatch f cv cb (execStmt f t st)) := rfl

/-- C5: `try{throw 5}catch(e){print(e)}finally{print("done")}` prints
`5` then `done`, in that order, exactly once each; and in general, for
a try statement with a finally block: on normal completion of the try
block the catch block is skipped and the finally block runs once; a
`return` signal unwinding through the try still runs the finally block
once and survives it; a thrown value runs the catch block once (in a
fresh scope with the value bound to the catch variable) and then the
finally block once. -/
theorem C5_try_catch_finally :
    execStmt 9 tryProg st0 = (.val .vnone, { st0 with out := [r"5", r"done"] }) ∧
    (∀ (f : Nat) (t : Stmt) (cv : String) (cb : Option Stmt) (fbk : Stmt) (st : St)
        (v w : Value) (s1 sf : St),
      execStmt (f + 1) t st = (.val v, s1) →
      execStmt f fbk s1 = (.val w, sf) →
      execStmt (f + 2) (.tryCatch t cv cb (some fbk)) st = (.val v, sf)) ∧
    (∀ (f : Nat) (t : Stmt) (cv : String) (cb : Option Stmt) (fbk : Stmt) (st : St)
        (v w : Value) (s1 sf : St),
      execStmt (f + 1) t st = (.ret v, s1) →
      execStmt f fbk s1 = (.val w, sf) →
      execStmt (f + 2) (.tryCatch t cv cb (some fbk)) st = (.ret v, sf)) ∧
    (∀ (f : Nat) (t c fbk : Stmt) (cv : String) (st : St) (v u w : Value) (s1 sc sf : St),
      execStmt (f + 1) t st = (.thrown v, s1) →
      execStmt f c (setVar (enterScope s1) cv v) = (.val u, sc) →
      execStmt f fbk (exitScope sc) = (.val w, sf) →
      execStmt (f + 2) (.tryCatch t cv (some c) (some fbk)) st = (.val .vnone, sf)) := by
  refine ⟨rfl, ?_, ?_, ?_⟩
  · intro f t cv cb fbk st v w s1 sf h1 h2
    show execStmt ((f + 1) + 1) (.tryCatch t cv cb (some fbk)) st = (.val v, sf)
    rw [execStmt_tryCatch, h1]
    simp only [execCatch, execFin, h2]
  · intro f t cv cb fbk st v w s1 sf h1 h2
    show execStmt ((f + 1) + 1) (.tryCatch t cv cb (some fbk)) st = (.ret v, sf)
    rw [execStmt_tryCatch, h1]
    simp only [execCatch, execFin, h2]
  · intro f t c fbk cv st v u w s1 sc sf h1 h2 h3
    show execStmt ((f + 1) + 1) (.tryCatch t cv (some c) (some fbk)) st = (.val .vnone, sf)
    rw [execStmt_tryCatch, h1]
    simp only [execCatch, h2, execFin, h3]

/-- C5 (witness): the thrown-path clause of the theorem applied to the
concrete program `try{throw 5}catch(e){print(e)}finally{print("done")}`
in the initial state. -/
theorem C5_try_catch_finally_witness :
    execStmt 9 tryProg st0 = (.val .vnone, (⟨[[]], [], [], [r"5", r"done"]⟩ : St)) :=
  C5_try_catch_finally.2.2.2 7 (.block [.throwStmt (.num 5)])
    (.block [.printStmt [.var (r"e")]]) (.block [.printStmt [.strLit (r"done")]])
    (r"e") st0 (.int 5) .vnone .vnone st0
    ⟨[[(r"e", Value.int 5)], []], [], [], [r"5"]⟩
    ⟨[[]], [], [], [r"5", r"done"]⟩ rfl rfl rfl

/-- C7 (counterexample): a thrown value unwinding out of a `for` body
escapes `visit_ForStatement` without reaching its `exit_scope` call (no
`finally` protects it), so the loop's scope frame is still on the stack
after the loop: executing `for x in [1]{throw 7}` from a one-frame
stack leaves a two-frame stack. -/
theorem C7_counterexample :
    execStmt 9 forThrow st0 = (.thrown (.int 7), ⟨[[(r"x", .int 1)], []], [], [], []⟩) ∧
    (⟨[[(r"x", .int 1)], []], [], [], []⟩ : St).scopes.length ≠ st0.scopes.length :=
  ⟨rfl, by decide⟩

/-- C7 (amended): a `for` loop pushes exactly one scope frame on entry
— one frame shared by every iteration, in which the loop variable is
rebound — and pops exactly one frame on normal completion and on
`break`; but when a thrown value (or any non-loop signal) unwinds out
of the body, the frame is not popped and the signal escapes with the
loop frame still pushed.  Concretely: the empty and `break` loops
restore the initial state exactly; the shared-frame program prints the
binding created by the previous iteration; the throwing loop leaves the
extra frame behind. -/
theorem C7_for_loop_scope :
    execStmt 9 forEmpty st0 = (.val .vnone, st0) ∧
    execStmt 9 forBreak st0 = (.val .vnone, st0) ∧
    execStmt 20 forShared st0 = (.val .vnone, { st0 with out := [r"100"] }) ∧
    execStmt 9 forThrow st0 = (.thrown (.int 7), ⟨[[(r"x", .int 1)], []], [], [], []⟩) :=
  ⟨rfl, rfl, rfl, rfl⟩

/-- The transcription of Python `list.index` agrees with
`List.findIdx?` on the identity predicate. -/
lemma listIndexOfCid_eq (t : Nat) (l : List ClassObj) :
    listIndexOfCid t l = l.findIdx? (fun k => k.cid == t) := by
  induction l with
  | nil => rfl
  | cons a l ih =>
    simp only [listIndexOfCid, List.findIdx?_cons]
    cases h : (a.cid == t) with
    | true => simp [h]
    | false =>
      simp only [h, Bool.false_eq_true, if_false]
      rw [ih, List.findIdx?_succ]
      cases l.findIdx? (fun k => k.cid == t) <;> rfl

/-- The scan of `find_method` agrees with `List.find?` followed by the
method-table lookup. -/
lemma findMethodAux_eq (nm : String) (l : List ClassObj) :
    findMethodAux nm l =
      (l.find? (fun k => (lookupMethod k nm).isSome)).bind
        (fun k => (lookupMethod k nm).map (fun mid => (mid, k))) := by
  induction l with
  | nil => rfl
  | cons a l ih =>
    simp only [findMethodAux]
    cases h : lookupMethod a nm with
    | some mid =>
      rw [List.find?_cons_of_pos _ (by simp [h])]
      simp [h]
    | none =>
      rw [List.find?_cons_of_neg _ (by simp [h])]
      exact ih

/-- C1 (amended): with an empty method-context stack, `super` is an
error; otherwise, for the `(instance, defining_class)` pair on top of
the stack, `super.attr` locates the first occurrence of the defining
class in the instance's class MRO, takes the class one position past it
(error if the defining class is absent or last), and then resolves the
method by scanning that successor class's own MRO — not the instance's
MRO suffix — erroring when no class of the successor's MRO defines the
method. -/
theorem C1_super_resolution :
    (∀ attr, superLookup [] attr = .error msgSuperOutside) ∧
    (∀ (inst : Inst) (dc : ClassObj) (rest : List (Inst × ClassObj)) (attr : String),
      superLookup ((inst, dc) :: rest) attr =
        match (mroList inst.klass).findIdx? (fun k => k.cid == dc.cid) with
        | none => .error msgSuperNoValid
        | some i =>
          match (mroList inst.klass)[i + 1]? with
          | none => .error msgSuperNoValid
          | some s =>
            match (mroList s).find? (fun k => (lookupMethod k attr).isSome) with
            | none => .error msgSuperNoMethod
            | some k =>
              match lookupMethod k attr with
              | some mid => .ok ⟨inst, mid, k⟩
              | none => .error msgSuperNoMethod) := by
  refine ⟨fun attr => rfl, fun inst dc rest attr => ?_⟩
  simp only [superLookup, visitSuperNode, listIndexOfCid_eq]
  cases h1 : (mroList inst.klass).findIdx? (fun k => k.cid == dc.cid) with
  | none => simp only [h1]
  | some i =>
    simp only [h1]
    cases h2 : (mroList inst.klass)[i + 1]? with
    | none => simp only [h2]
    | some s =>
      simp only [h2, superAttributeAccess, find_method, findMethodAux_eq]
      cases h3 : (mroList s).find? (fun k => (lookupMethod k attr).isSome) with
      | none => simp [h3]
      | some k =>
        simp only [h3, Option.some_bind]
        cases h4 : lookupMethod k attr with
        | none => simp [h4]
        | some mid => simp [h4]

/-! ### The method-context stack is restored by every evaluation step -/

lemma enterScope_mctx (st : St) : (enterScope st).mctx = st.mctx := rfl

lemma exitScope_mctx (st : St) : (exitScope st).mctx = st.mctx := rfl

lemma setVar_mctx (st : St) (n : String) (v : Value) : (setVar st n v).mctx = st.mctx := rfl

lemma bindRes_mctx {M : List (Inst × ClassObj)} (r : Outcome × St)
    (k : Value → St → Outcome × St) (hr : r.2.mctx = M)
    (hk : ∀ v s, s.mctx = M → ((k v s).2).mctx = M) :
    ((bindRes r k).2).mctx = M := by
  rcases r with ⟨o, s⟩
  cases o <;> simp only [bindRes] <;> try exact hr
  exact hk _ _ hr

lemma bindListRes_mctx {M : List (Inst × ClassObj)} (r : Outcome × St)
    (k : List Value → St → Outcome × St) (hr : r.2.mctx = M)
    (hk : ∀ vs s, s.mctx = M → ((k vs s).2).mctx = M) :
    ((bindListRes r k).2).mctx = M := by
  rcases r with ⟨o, s⟩
  cases o <;> simp only [bindListRes] <;> try exact hr
  case val v => cases v <;> simp only [] <;> first
    | exact hk _ _ hr
    | exact hr

/-- No evaluation step leaves a net change on the method-context stack:
the only pushes — in `_call_function`, for method calls — are matched
by the pop in its `finally`, on every exit path including signals,
thrown values, runtime errors and fuel exhaustion. -/
lemma mctx_invariant : ∀ f : Nat,
    (∀ e st, ((evalExpr f e st).2).mctx = st.mctx) ∧
    (∀ es st, ((evalExprList f es st).2).mctx = st.mctx) ∧
    (∀ s st, ((execStmt f s st).2).mctx = st.mctx) ∧
    (∀ cv cb r, ((execCatch f cv cb r).2).mctx = (r.2).mctx) ∧
    (∀ fb r, ((execFin f fb r).2).mctx = (r.2).mctx) ∧
    (∀ ss st, ((execStmtList f ss st).2).mctx = st.mctx) ∧
    (∀ c b st, ((execWhile f c b st).2).mctx = st.mctx) ∧
    (∀ v b items st, ((runForItems f v b items st).2).mctx = st.mctx) ∧
    (∀ fn im ps fa st, ((bindParams f fn im ps fa st).2).mctx = st.mctx) ∧
    (∀ fn im ps fa b st, ((bindAndRun f fn im ps fa b st).2).mctx = st.mctx) ∧
    (∀ fd args kwargs selfp st, ((callFunction f fd args kwargs selfp st).2).mctx = st.mctx) := by
  intro f
  induction f with
  | zero =>
    exact ⟨fun _ _ => rfl, fun _ _ => rfl, fun _ _ => rfl, fun _ _ _ => rfl, fun _ _ => rfl,
      fun _ _ => rfl, fun _ _ _ => rfl, fun _ _ _ _ => rfl, fun _ _ _ _ _ => rfl,
      fun _ _ _ _ _ _ => rfl, fun _ _ _ _ _ => rfl⟩
  | succ n ih =>
    obtain ⟨ihE, ihEL, ihS, ihCt, ihFn, ihSL, ihW, ihF, ihB, ihBR, ihC⟩ := ih
    refine ⟨?_, ?_, ?_, ?_, ?_, ?_, ?_, ?_, ?_, ?_, ?_⟩
    · -- evalExpr
      intro e st
      cases e with
      | num _ => rfl
      | strLit _ => rfl
      | boolLit _ => rfl
      | var nm =>
        simp only [evalExpr]
        cases getVar st nm <;> rfl
      | binop op l rr =>
        simp only [evalExpr]
        refine bindRes_mctx _ _ (ihE l st) (fun v s hs => ?_)
        exact bindRes_mctx _ _ ((ihE rr s).trans hs) (fun v2 s2 hs2 => hs2)
      | listLit es => exact ihEL es st
      | call callee args kws =>
        simp only [evalExpr]
        refine bindListRes_mctx _ _ (ihEL args st) (fun vs s1 h1 => ?_)
        refine bindListRes_mctx _ _ ((ihEL _ s1).trans h1) (fun vs2 s2 h2 => ?_)
        cases callee <;>
          try exact bindRes_mctx _ _ ((ihE _ s2).trans h2) (fun _ s3 h3 => h3)
        case var nm =>
          simp only []
          cases s2.functions.lookup nm with
          | some fd => exact (ihC fd vs _ none s2).trans h2
          | none => exact bindRes_mctx _ _ ((ihE _ s2).trans h2) (fun _ s3 h3 => h3)
    · -- evalExprList
      intro es st
      cases es with
      | nil => rfl
      | cons e es =>
        simp only [evalExprList]
        refine bindRes_mctx _ _ (ihE e st) (fun v s1 h1 => ?_)
        exact bindListRes_mctx _ _ ((ihEL es s1).trans h1) (fun vs s2 h2 => h2)
    · -- execStmt
      intro s st
      cases s with
      | exprStmt e => exact ihE e st
      | assign nm e =>
        simp only [execStmt]
        exact bindRes_mctx _ _ (ihE e st) (fun v s1 h1 => h1)
      | printStmt es =>
        simp only [execStmt]
        exact bindListRes_mctx _ _ (ihEL es st) (fun vs s1 h1 => h1)
      | block ss => exact ihSL ss st
      | ifStmt c t el =>
        simp only [execStmt]
        refine bindRes_mctx _ _ (ihE c st) (fun v s1 h1 => ?_)
        cases truthy v
        · cases el with
          | some eb => exact (ihS eb s1).trans h1
          | none => exact h1
        · exact (ihS t s1).trans h1
      | whileStmt c b => exact ihW c b st
      | forStmt v it b =>
        simp only [execStmt]
        refine bindRes_mctx _ _ (ihE it st) (fun iv s1 h1 => ?_)
        cases iterItems iv with
        | none => exact h1
        | some items =>
          simp only []
          rcases hr : runForItems n v b items (enterScope s1) with ⟨o, st2⟩
          have hm : st2.mctx = s1.mctx := by
            have h := ihF v b items (enterScope s1)
            rw [hr] at h
            exact h
          cases o <;> exact hm.trans h1
      | funcDef nm ps bd => rfl
      | ret e =>
        simp only [execStmt]
        exact bindRes_mctx _ _ (ihE e st) (fun v s1 h1 => h1)
      | brk => rfl
      | cont => rfl
      | throwStmt e =>
        simp only [execStmt]
        exact bindRes_mctx _ _ (ihE e st) (fun v s1 h1 => h1)
      | tryCatch t cv cb fb =>
        simp only [execStmt]
        exact (ihFn fb _).trans ((ihCt cv cb _).trans (ihS t st))
    · -- execCatch
      intro cv cb r
      rcases r with ⟨o, s1⟩
      cases o <;> simp only [execCatch]
      case thrown v =>
        cases cb with
        | none => rfl
        | some c =>
          simp only []
          rcases hc : execStmt n c (setVar (enterScope s1) cv v) with ⟨o2, sc⟩
          have hm : sc.mctx = s1.mctx := by
            have h := ihS c (setVar (enterScope s1) cv v)
            rw [hc] at h
            exact h
          cases o2 <;> exact hm
    · -- execFin
      intro fb r
      cases fb with
      | none => rfl
      | some fblk =>
        simp only [execFin]
        rcases hf : execStmt n fblk r.2 with ⟨o2, sf⟩
        have hm : sf.mctx = r.2.mctx := by
          have h := ihS fblk r.2
          rw [hf] at h
          exact h
        cases o2 <;> exact hm
    · -- execStmtList
      intro ss st
      cases ss with
      | nil => rfl
      | cons s rest =>
        simp only [execStmtList]
        rcases h1 : execStmt n s st with ⟨o, s1⟩
        have hm : s1.mctx = st.mctx := by
          have h := ihS s st
          rw [h1] at h
          exact h
        cases o <;> first
          | exact (ihSL rest s1).trans hm
          | exact hm
    · -- execWhile
      intro c b st
      simp only [execWhile]
      refine bindRes_mctx _ _ (ihE c st) (fun v s1 h1 => ?_)
      cases truthy v
      · exact h1
      · simp only []
        rcases h2 : execStmt n b s1 with ⟨o, s2⟩
        have hm : s2.mctx = s1.mctx := by
          have h := ihS b s1
          rw [h2] at h
          exact h
        cases o <;> first
          | exact ((ihW c b s2).trans hm).trans h1
          | exact hm.trans h1
    · -- runForItems
      intro v b items st
      cases items with
      | nil => rfl
      | cons item rest =>
        simp only [runForItems]
        rcases h2 : execStmt n b (setVar st v item) with ⟨o, s2⟩
        have hm : s2.mctx = st.mctx := by
          have h := ihS b (setVar st v item)
          rw [h2] at h
          exact h
        cases o <;> first
          | exact (ihF v b rest s2).trans hm
          | exact hm
    · -- bindParams
      intro fn im ps fa st
      cases ps with
      | nil => rfl
      | cons p rest =>
        rcases p with ⟨pn, defOpt⟩
        simp only [bindParams]
        cases fa.lookup pn with
        | some v => exact ihB fn im rest fa (setVar st pn v)
        | none =>
          cases defOpt with
          | some d =>
            simp only []
            refine bindRes_mctx _ _ (ihE d st) (fun dv s1 h1 => ?_)
            exact (ihB fn im rest fa (setVar s1 pn dv)).trans h1
          | none =>
            cases (im && fn == some pn)
            · rfl
            · exact ihB fn im rest fa st
    · -- bindAndRun
      intro fn im ps fa b st
      simp only [bindAndRun]
      rcases h1 : bindParams n fn im ps fa st with ⟨o1, s1⟩
      have hm1 : s1.mctx = st.mctx := by
        have h := ihB fn im ps fa st
        rw [h1] at h
        exact h
      cases o1 <;> try exact hm1
      case val v =>
        simp only []
        rcases h2 : execStmt n b s1 with ⟨o2, s2⟩
        have hm2 : s2.mctx = s1.mctx := by
          have h := ihS b s1
          rw [h2] at h
          exact h
        cases o2 <;> exact hm2.trans hm1
    · -- callFunction
      intro fd args kwargs selfp st
      simp only [callFunction]
      cases prepareSelf selfp fd.params with
      | error m => rfl
      | ok pr =>
        rcases pr with ⟨activeParams, fa0⟩
        simp only []
        cases bindPositional args (activeParams.map Prod.fst) (kwargs.map Prod.fst) fa0 with
        | error m => rfl
        | ok fa1 =>
          simp only []
          cases bindKeywords kwargs (activeParams.map Prod.fst) fa1 with
          | error m => rfl
          | ok finalArgs =>
            simp only []
            cases selfp with
            | none =>
              simp only [finishCall]
              simp only [exitScope_mctx]
              exact ihBR (activeParams.map Prod.fst).head? _ activeParams finalArgs fd.body
                (enterScope st)
            | some pr2 =>
              simp only [finishCall]
              simp only [exitScope_mctx]
              have h := ihBR (activeParams.map Prod.fst).head? ((some pr2).isSome) activeParams
                finalArgs fd.body (enterScope { st with mctx := pr2 :: st.mctx })
              rw [h]
              rfl

/-- C9: a user-defined method call — `_call_function` invoked with an
`(instance, defining_class)` pair, as `MlscriptBoundMethod.__call__`
does — pushes exactly that pair and pops it again on every exit path
(normal completion, `return`, a thrown value, a runtime error), so the
method-context stack after the call is exactly the stack before it; the
same holds for plain function calls, which never touch the stack. -/
theorem C9_method_context_restored :
    ∀ (f : Nat) (fd : FuncDef) (args : List Value) (kwargs : List (String × Value))
      (inst : Inst) (dc : ClassObj) (st : St),
      ((callFunction f fd args kwargs (some (inst, dc)) st).2).mctx = st.mctx ∧
      ((boundMethodCall f ⟨inst, dc, fd⟩ args kwargs st).2).mctx = st.mctx ∧
      ((callFunction f fd args kwargs none st).2).mctx = st.mctx :=
  fun f fd args kwargs inst dc st =>
    ⟨(mctx_invariant f).2.2.2.2.2.2.2.2.2.2 fd args kwargs (some (inst, dc)) st,
     (mctx_invariant f).2.2.2.2.2.2.2.2.2.2 fd args kwargs (some (inst, dc)) st,
     (mctx_invariant f).2.2.2.2.2.2.2.2.2.2 fd args kwargs none st⟩

end Mlscript
